import Mathlib

/-!
Shallow embedding of `src/main.py` (expense-summary): field parsers
(`normalize_category`, `parse_amount`, `parse_date`), the row classifier
`read_expenses`, the aggregator `summarize_by_month`, and the two writers
`write_monthly_summary` / `write_invalid_rows`.

Python floats are idealized as exact values: an amount is a `PyVal`,
either a fraction `num / den` (kept unnormalized so that all operations
are kernel-computable; `PyVal.val` interprets it in `ℚ`) or one of the
special values `inf`, `-inf`, `nan` that Python float-string parsing can
produce.  Strings are handled as `List Char`; Python string ordering
(code-point lexicographic) coincides with Lean's `String` order.  File
I/O is modelled by explicit state: a file is `Option` of its content.
-/

deriving instance DecidableEq for Except

/-- Idealized Python float value: exact fraction `num / den` (unnormalized),
or a special value. -/
inductive PyVal where
  | finite (num : ℤ) (den : ℕ)
  | inf
  | ninf
  | nan
deriving DecidableEq, Repr

/-- The rational value of a finite `PyVal`; `none` for the special values. -/
def PyVal.val : PyVal → Option ℚ
  | .finite n d => some ((n : ℚ) / (d : ℚ))
  | _ => none

/-- Float addition on the idealized values (`nan` absorbs; `inf + -inf = nan`). -/
def PyVal.add : PyVal → PyVal → PyVal
  | .nan, _ => .nan
  | _, .nan => .nan
  | .inf, .ninf => .nan
  | .ninf, .inf => .nan
  | .inf, _ => .inf
  | _, .inf => .inf
  | .ninf, _ => .ninf
  | _, .ninf => .ninf
  | .finite n1 d1, .finite n2 d2 => .finite (n1 * (d2 : ℤ) + n2 * (d1 : ℤ)) (d1 * d2)

/-- Python float `0.0`. -/
def PyVal.zero : PyVal := .finite 0 1

/-- The whitespace characters stripped by Python `str.strip()` (ASCII range). -/
def isSpaceC (c : Char) : Bool :=
  c = ' ' || c = '\t' || c = '\n' || c = '\r' || c = '\x0b' || c = '\x0c'

/-- Python `str.strip()`: drop leading and trailing whitespace. -/
def pyStrip (cs : List Char) : List Char :=
  ((cs.dropWhile isSpaceC).reverse.dropWhile isSpaceC).reverse

def isDigitC (c : Char) : Bool := '0' ≤ c && c ≤ '9'

def digitVal (c : Char) : Nat := c.toNat - 48

/-- Consume a run of digits (single underscores allowed between digits, as in
Python float literals), accumulating value and digit count; returns the rest. -/
def digitsLoop (acc : Nat) (n : Nat) : List Char → Nat × Nat × List Char
  | [] => (acc, n, [])
  | c :: rest =>
    if isDigitC c then digitsLoop (10 * acc + digitVal c) (n + 1) rest
    else if c = '_' then
      match rest with
      | d :: rest2 =>
        if isDigitC d then digitsLoop (10 * acc + digitVal d) (n + 1) rest2
        else (acc, n, c :: rest)
      | [] => (acc, n, c :: rest)
    else (acc, n, c :: rest)

/-- Python float grammar `digitpart`: at least one digit. -/
def takeDigitpart : List Char → Option (Nat × Nat × List Char)
  | c :: rest =>
    if isDigitC c then some (digitsLoop (digitVal c) 1 rest) else none
  | [] => none

/-- Python float grammar `number ::= [digitpart] "." digitpart | digitpart ["."]`;
returns the digits as a mantissa `m` with `fd` fractional digits (value
`m / 10 ^ fd`) and the unconsumed suffix. -/
def takeNumber (cs : List Char) : Option (Nat × Nat × List Char) :=
  match takeDigitpart cs with
  | some (iv, _, rest) =>
    match rest with
    | '.' :: rest2 =>
      match takeDigitpart rest2 with
      | some (fv, fd, rest3) => some (iv * 10 ^ fd + fv, fd, rest3)
      | none => some (iv, 0, rest2)
    | _ => some (iv, 0, rest)
  | none =>
    match cs with
    | '.' :: rest2 =>
      match takeDigitpart rest2 with
      | some (fv, fd, rest3) => some (fv, fd, rest3)
      | none => none
    | _ => none

/-- Python float grammar `exponent ::= ("e" | "E") [sign] digitpart`. -/
def takeExp (cs : List Char) : Option (ℤ × List Char) :=
  match cs with
  | c :: rest =>
    if c = 'e' || c = 'E' then
      match rest with
      | '+' :: r =>
        match takeDigitpart r with
        | some (ev, _, rest3) => some ((ev : ℤ), rest3)
        | none => none
      | '-' :: r =>
        match takeDigitpart r with
        | some (ev, _, rest3) => some (-(ev : ℤ), rest3)
        | none => none
      | r =>
        match takeDigitpart r with
        | some (ev, _, rest3) => some ((ev : ℤ), rest3)
        | none => none
    else none
  | [] => none

/-- Build the finite value `±(m / 10 ^ fd) * 10 ^ e` as an unnormalized fraction. -/
def mkFinite (neg : Bool) (m : Nat) (fd : Nat) (e : ℤ) : PyVal :=
  let sc : ℤ := e - (fd : ℤ)
  let num : ℤ := if neg then -(m : ℤ) else (m : ℤ)
  if 0 ≤ sc then .finite (num * (10 : ℤ) ^ sc.toNat) 1
  else .finite num (10 ^ (-sc).toNat)

/-- Python `float(str)` on an already-stripped string: optional sign, then
`inf` / `infinity` / `nan` (case-insensitive) or a float literal, with the
whole input consumed.  Returns `none` exactly when Python raises `ValueError`. -/
def pyFloat? (cs : List Char) : Option PyVal :=
  let (neg, rest) :=
    match cs with
    | '+' :: r => (false, r)
    | '-' :: r => (true, r)
    | r => (false, r)
  let lower := rest.map Char.toLower
  if lower = "inf".data || lower = "infinity".data then
    some (if neg then .ninf else .inf)
  else if lower = "nan".data then some .nan
  else
    match takeNumber rest with
    | some (m, fd, rest2) =>
      match rest2 with
      | [] => some (mkFinite neg m fd 0)
      | _ =>
        match takeExp rest2 with
        | some (e, []) => some (mkFinite neg m fd e)
        | _ => none
    | none => none

/-- `parse_amount` from `src/main.py`: `None` or (after removing commas and
stripping) empty is `Missing amount`; otherwise defer to Python float parsing,
failing with `Invalid amount`. -/
def parse_amount (value : Option String) : Except String PyVal :=
  match value with
  | none => .error "Missing amount"
  | some v =>
    let normalized := pyStrip (v.data.filter (fun c => c ≠ ','))
    if normalized = [] then .error "Missing amount"
    else
      match pyFloat? normalized with
      | some x => .ok x
      | none => .error "Invalid amount"

/-- Split into whitespace-separated words, as Python `str.split()` (no args). -/
def pyWordsAux (cur : List Char) : List Char → List (List Char)
  | [] => if cur = [] then [] else [cur.reverse]
  | c :: rest =>
    if isSpaceC c then
      if cur = [] then pyWordsAux [] rest else cur.reverse :: pyWordsAux [] rest
    else pyWordsAux (c :: cur) rest

def pyWords (cs : List Char) : List (List Char) := pyWordsAux [] cs

/-- `normalize_category` from `src/main.py`: `" ".join(value.strip().split())`,
failing with `Missing category` on `None` or when nothing remains. -/
def normalize_category (value : Option String) : Except String String :=
  match value with
  | none => .error "Missing category"
  | some v =>
    let cleaned := List.intercalate [' '] (pyWords v.data)
    if cleaned = [] then .error "Missing category"
    else .ok (String.mk cleaned)

/-- A calendar date as produced by `datetime.strptime` (time part always zero). -/
structure PyDate where
  year : Nat
  month : Nat
  day : Nat
deriving DecidableEq, Repr

def isLeap (y : Nat) : Bool := (y % 4 = 0 && y % 100 ≠ 0) || y % 400 = 0

def daysInMonth (y m : Nat) : Nat :=
  if m = 2 then (if isLeap y then 29 else 28)
  else if m = 4 || m = 6 || m = 9 || m = 11 then 30
  else 31

/-- Split on a separator character (never returns an empty list). -/
def splitSep (sep : Char) : List Char → List (List Char)
  | [] => [[]]
  | c :: rest =>
    let r := splitSep sep rest
    if c = sep then [] :: r
    else
      match r with
      | h :: t => (c :: h) :: t
      | [] => [[c]]

def natOfDigits (cs : List Char) : Nat :=
  cs.foldl (fun a c => 10 * a + digitVal c) 0

/-- CPython `%y` two-digit year expansion: `00–68` → 2000s, `69–99` → 1900s. -/
def expandY2 (v : Nat) : Nat := if v ≤ 68 then 2000 + v else 1900 + v

/-- `datetime.strptime(cleaned, fmt)` for a day-month-year format with
separator `sep` and a 4-digit (`y4 = true`) or 2-digit year.  The CPython
regex forces the day and month tokens to be 1–2 digits with values in range
and the year token to have the exact digit count; the `datetime` constructor
then requires `year ≥ 1` and the day to exist in the month. -/
def tryFormat (sep : Char) (y4 : Bool) (cs : List Char) : Option PyDate :=
  match splitSep sep cs with
  | [d, m, y] =>
    let dv := natOfDigits d
    let mv := natOfDigits m
    let dOk := d.all isDigitC && 1 ≤ d.length && d.length ≤ 2 && 1 ≤ dv && dv ≤ 31
    let mOk := m.all isDigitC && 1 ≤ m.length && m.length ≤ 2 && 1 ≤ mv && mv ≤ 12
    let yOk := y.all isDigitC && (if y4 then y.length = 4 else y.length = 2)
    if dOk && mOk && yOk then
      let yv := if y4 then natOfDigits y else expandY2 (natOfDigits y)
      if 1 ≤ yv && dv ≤ daysInMonth yv mv then some ⟨yv, mv, dv⟩ else none
    else none
  | _ => none

/-- `parse_date` from `src/main.py`: `None` or whitespace-only is
`Missing date`; otherwise the four formats of `DATE_FORMATS` are tried in
order (`%d-%m-%Y`, `%d-%m-%y`, `%d/%m/%Y`, `%d/%m/%y`) and if none matches
the failure is `Invalid date format`. -/
def parse_date (value : Option String) : Except String PyDate :=
  match value with
  | none => .error "Missing date"
  | some v =>
    let cleaned := pyStrip v.data
    if cleaned = [] then .error "Missing date"
    else
      match tryFormat '-' true cleaned with
      | some d => .ok d
      | none =>
        match tryFormat '-' false cleaned with
        | some d => .ok d
        | none =>
          match tryFormat '/' true cleaned with
          | some d => .ok d
          | none =>
            match tryFormat '/' false cleaned with
            | some d => .ok d
            | none => .error "Invalid date format"

/-- `"0"`-padding to two digits, as `strftime` `%m`. -/
def pad2 (n : Nat) : String := if n < 10 then "0" ++ toString n else toString n

/-- A validated expense row (`ExpenseRow` dataclass in `src/main.py`). -/
structure ExpenseRow where
  category : String
  amount : PyVal
  details : String
  date : PyDate
deriving DecidableEq, Repr

/-- `ExpenseRow.month_key`: `date.strftime("%Y-%m")`. -/
def ExpenseRow.month_key (r : ExpenseRow) : String :=
  toString r.date.year ++ "-" ++ pad2 r.date.month

/-- One raw CSV data row as seen by `read_expenses` through `csv.DictReader`:
each field is `none` when the column is missing or the row is short. -/
structure RawRecord where
  Category : Option String
  Amount : Option String
  Details : Option String
  Date : Option String
deriving DecidableEq, Repr

/-- One rejection entry, as built by `_invalid_row` in `src/main.py`. -/
structure InvalidRow where
  RowNumber : Nat
  Category : String
  Amount : String
  Details : String
  Date : String
  Reason : String
deriving DecidableEq, Repr

/-- `(row.get(k) or "").strip()` as used by `_invalid_row`. -/
def strippedField (v : Option String) : String := String.mk (pyStrip (v.getD "").data)

/-- `_invalid_row` from `src/main.py`. -/
def invalidRowOf (r : RawRecord) (rowNumber : Nat) (reason : String) : InvalidRow :=
  { RowNumber := rowNumber
    Category := strippedField r.Category
    Amount := strippedField r.Amount
    Details := strippedField r.Details
    Date := strippedField r.Date
    Reason := reason }

/-- The body of the `read_expenses` loop for one row at 1-based position
`index`: validate category, then amount, then date, short-circuiting on the
first failure; on success build the `ExpenseRow` (details merely trimmed). -/
def processRow (index : Nat) (r : RawRecord) : Except InvalidRow ExpenseRow :=
  match normalize_category r.Category with
  | .error e => .error (invalidRowOf r index e)
  | .ok category =>
    match parse_amount r.Amount with
    | .error e => .error (invalidRowOf r index e)
    | .ok amount =>
      match parse_date r.Date with
      | .error e => .error (invalidRowOf r index e)
      | .ok date =>
        .ok { category := category
              amount := amount
              details := String.mk (pyStrip (r.Details.getD "").data)
              date := date }

/-- The classification outcome of one row: `none` when accepted, otherwise
the rejection reason. -/
def rowOutcome : Except InvalidRow ExpenseRow → Option String
  | .ok _ => none
  | .error iv => some iv.Reason

/-- The `read_expenses` loop over the data rows, numbering from `i`. -/
def readGo (i : Nat) : List RawRecord → List ExpenseRow × List InvalidRow
  | [] => ([], [])
  | r :: rest =>
    let p := readGo (i + 1) rest
    match processRow i r with
    | .ok v => (v :: p.1, p.2)
    | .error iv => (p.1, iv :: p.2)

/-- `read_expenses` from `src/main.py`, applied to the already-decoded data
rows (the header is row 1, so `enumerate(reader, start=2)`). -/
def read_expenses (rows : List RawRecord) : List ExpenseRow × List InvalidRow :=
  readGo 2 rows

/-- `totals[month][cat] += amount` on one insertion-ordered category map:
an existing key is updated in place, a new key is appended (with the
`defaultdict(float)` zero). -/
def addCat (cat : String) (amt : PyVal) : List (String × PyVal) → List (String × PyVal)
  | [] => [(cat, PyVal.add PyVal.zero amt)]
  | (c, a) :: rest =>
    if c = cat then (c, PyVal.add a amt) :: rest
    else (c, a) :: addCat cat amt rest

/-- One step of `summarize_by_month`: add an expense into the
insertion-ordered month map. -/
def addExp (e : ExpenseRow) : List (String × List (String × PyVal)) → List (String × List (String × PyVal))
  | [] => [(e.month_key, addCat e.category e.amount [])]
  | (m, cats) :: rest =>
    if m = e.month_key then (m, addCat e.category e.amount cats) :: rest
    else (m, cats) :: addExp e rest

/-- `summarize_by_month` from `src/main.py`: a nested `defaultdict` is
modelled as an insertion-ordered association list of association lists. -/
def summarize_by_month (expenses : List ExpenseRow) : List (String × List (String × PyVal)) :=
  expenses.foldl (fun acc e => addExp e acc) []

/-- Lookup of a category in one month's map. -/
def lookupCat (cats : List (String × PyVal)) (c : String) : Option PyVal :=
  (cats.find? (fun q => q.1 = c)).map Prod.snd

/-- Lookup of `summary[month][cat]`. -/
def lookupMC (s : List (String × List (String × PyVal))) (m c : String) : Option PyVal :=
  match s.find? (fun p => p.1 = m) with
  | none => none
  | some p => lookupCat p.2 c

/-- The total of a group, `0.0` when the group is absent. -/
def getTot (s : List (String × List (String × PyVal))) (m c : String) : PyVal :=
  (lookupMC s m c).getD PyVal.zero

/-- Python `sorted` on strings (code-point lexicographic, ascending). -/
def sortStr (l : List String) : List String :=
  List.insertionSort (fun a b => a ≤ b) l

/-- Round-half-even of `num / den` (for `den > 0`), as used by `"%.2f"`. -/
def roundHE (num den : Nat) : Nat :=
  let f := num / den
  let r := num % den
  if 2 * r < den then f
  else if den < 2 * r then f + 1
  else if f % 2 = 0 then f else f + 1

/-- `f"{x:.2f}"` on the idealized float value. -/
def fmt2 : PyVal → String
  | .inf => "inf"
  | .ninf => "-inf"
  | .nan => "nan"
  | .finite n d =>
    let sign := if n < 0 then "-" else ""
    let r := roundHE (100 * n.natAbs) d
    sign ++ toString (r / 100) ++ "." ++ pad2 (r % 100)

/-- `write_monthly_summary` from `src/main.py`, as the sequence of data rows
`(Month, Category, TotalAmount)` it writes: months in `sorted` order, then
categories in `sorted` order within each month. -/
def write_monthly_summary (summary : List (String × List (String × PyVal))) : List (String × String × String) :=
  ((sortStr (summary.map Prod.fst)).map (fun month =>
    match summary.find? (fun p => p.1 = month) with
    | some p =>
      (sortStr (p.2.map Prod.fst)).map (fun cat =>
        (month, cat, fmt2 ((lookupCat p.2 cat).getD PyVal.zero)))
    | none => [])).flatten

def invalidHeader : List String := ["RowNumber", "Category", "Amount", "Details", "Date", "Reason"]

/-- One written line of the rejected-rows file. -/
def renderInvalid (iv : InvalidRow) : List String :=
  [toString iv.RowNumber, iv.Category, iv.Amount, iv.Details, iv.Date, iv.Reason]

/-- `write_invalid_rows` from `src/main.py`, as a transformer of the target
file's state (`none` = the file does not exist): with no rejected rows an
existing stale file is unlinked and nothing is written; otherwise the header
and one line per rejection are written. -/
def write_invalid_rows (invalid : List InvalidRow) (existing : Option (List (List String))) : Option (List (List String)) :=
  if invalid = [] then
    match existing with
    | some _ => none
    | none => none
  else some (invalidHeader :: invalid.map renderInvalid)

/-- Ordering of serialized summary rows: month strictly first, then category. -/
def keyLt (a b : String × String × String) : Prop :=
  a.1 < b.1 ∨ (a.1 = b.1 ∧ a.2.1 < b.2.1)

/-! ## Helper lemmas -/

theorem readGo_length (i : Nat) (rows : List RawRecord) :
    (readGo i rows).1.length + (readGo i rows).2.length = rows.length := by
  induction rows generalizing i with
  | nil => rfl
  | cons r rest ih =>
    simp only [readGo]
    cases processRow i r <;> simp [List.length_cons] <;>
      have := ih (i + 1) <;> omega

theorem filter_comma_idem (l : List Char) :
    (l.filter (fun c => c ≠ ',')).filter (fun c => c ≠ ',') =
      l.filter (fun c => c ≠ ',') := by
  rw [List.filter_filter]
  apply List.filter_congr
  intro c _
  simp

/-- The comma-free stripped residue `value.replace(",", "").strip()` that
`parse_amount` actually examines. -/
def commaFree (s : String) : List Char :=
  pyStrip (s.data.filter (fun c => c ≠ ','))

theorem parse_amount_some (s : String) :
    parse_amount (some s) =
      (if commaFree s = [] then .error "Missing amount"
       else
         match pyFloat? (commaFree s) with
         | some x => .ok x
         | none => .error "Invalid amount") := rfl

theorem pyVal_zero_add (a : PyVal) : PyVal.add PyVal.zero a = a := by
  cases a <;> simp [PyVal.add, PyVal.zero]

/-! ## Claim theorems -/

/-- C1: `read_expenses` partitions its input: every data row goes to exactly
one of the two result lists, so the lengths of the valid and invalid lists
add up to the number of input data rows. -/
theorem read_expenses_partition (rows : List RawRecord) :
    (read_expenses rows).1.length + (read_expenses rows).2.length = rows.length :=
  readGo_length 2 rows

/-- C2: under the fixed format priority of `DATE_FORMATS`, the four
day-month-year layouts of the same date all parse to day 1, month 2,
year 2024, while the year-first string is rejected as `Invalid date format`. -/
theorem parse_date_four_formats :
    parse_date (some "01-02-2024") = .ok ⟨2024, 2, 1⟩ ∧
    parse_date (some "01-02-24") = .ok ⟨2024, 2, 1⟩ ∧
    parse_date (some "01/02/2024") = .ok ⟨2024, 2, 1⟩ ∧
    parse_date (some "01/02/24") = .ok ⟨2024, 2, 1⟩ ∧
    parse_date (some "2024-02-01") = .error "Invalid date format" := by
  exact ⟨by decide, by decide, by decide, by decide, by decide⟩

/-- C3 (counterexample): the input `","` is neither absent nor
whitespace-only, yet `parse_amount` rejects it as `Missing amount` (the
commas are removed before the emptiness test), so the missing-amount
condition is not exactly absent-or-whitespace-only. -/
theorem parse_amount_missing_comma_counterexample :
    parse_amount (some ",") = .error "Missing amount" ∧
    some "," ≠ (none : Option String) ∧
    pyStrip ",".data ≠ [] := by
  exact ⟨by decide, by decide, by decide⟩

/-- C3 (amended): `parse_amount` fails with `Missing amount` exactly when its
input is absent or whitespace-only after comma removal; any other input is
parsed after comma and whitespace stripping and fails with `Invalid amount`
exactly when it is not a valid Python float literal; `"1,234.50"` yields
1234.50 and `"  12.0 "` yields 12.0, while malformed text, multiple decimal
points and a leading currency symbol yield `Invalid amount`. -/
theorem parse_amount_missing_and_invalid :
    (∀ v : Option String, parse_amount v = .error "Missing amount" ↔
      (v = none ∨ commaFree (v.getD "") = [])) ∧
    (∀ s : String, parse_amount (some s) = .error "Invalid amount" ↔
      (commaFree s ≠ [] ∧ pyFloat? (commaFree s) = none)) ∧
    parse_amount (some "1,234.50") = .ok (.finite 123450 100) ∧
    PyVal.val (.finite 123450 100) = some (1234.50 : ℚ) ∧
    parse_amount (some "  12.0 ") = .ok (.finite 120 10) ∧
    PyVal.val (.finite 120 10) = some (12.0 : ℚ) ∧
    parse_amount (some "abc") = .error "Invalid amount" ∧
    parse_amount (some "1.2.3") = .error "Invalid amount" ∧
    parse_amount (some "$5") = .error "Invalid amount" := by
  refine ⟨?_, ?_, by decide, ?_, by decide, ?_, by decide, by decide, by decide⟩
  · intro v
    cases v with
    | none => simp [parse_amount]
    | some s =>
      rw [parse_amount_some]
      by_cases h : commaFree s = []
      · simp [h]
      · rw [if_neg h]
        cases hf : pyFloat? (commaFree s) <;> simp [hf, h]
  · intro s
    rw [parse_amount_some]
    by_cases h : commaFree s = []
    · simp [h]
    · rw [if_neg h]
      cases hf : pyFloat? (commaFree s) <;> simp [hf, h]
  · simp [PyVal.val]; norm_num
  · simp [PyVal.val]; norm_num

/-- C4: for every raw row, validation runs category, then amount, then date,
short-circuiting on the first failure, whose reason is recorded; the details
field never influences acceptance or the recorded reason. -/
theorem processRow_first_failure (r : RawRecord) (i : Nat) :
    (∀ e, normalize_category r.Category = .error e →
      processRow i r = .error (invalidRowOf r i e)) ∧
    (∀ c e, normalize_category r.Category = .ok c →
      parse_amount r.Amount = .error e →
      processRow i r = .error (invalidRowOf r i e)) ∧
    (∀ c a e, normalize_category r.Category = .ok c →
      parse_amount r.Amount = .ok a →
      parse_date r.Date = .error e →
      processRow i r = .error (invalidRowOf r i e)) ∧
    (∀ d, rowOutcome (processRow i { r with Details := d }) =
      rowOutcome (processRow i r)) := by
  refine ⟨?_, ?_, ?_, ?_⟩
  · intro e he
    simp [processRow, he]
  · intro c e hc he
    simp [processRow, hc, he]
  · intro c a e hc ha hd
    simp [processRow, hc, ha, hd]
  · intro d
    cases hc : normalize_category r.Category with
    | error e => simp [processRow, hc, rowOutcome, invalidRowOf]
    | ok c =>
      cases ha : parse_amount r.Amount with
      | error e => simp [processRow, hc, ha, rowOutcome, invalidRowOf]
      | ok a =>
        cases hd : parse_date r.Date with
        | error e => simp [processRow, hc, ha, hd, rowOutcome, invalidRowOf]
        | ok dt => simp [processRow, hc, ha, hd, rowOutcome]

/-- C4 witness: a row with a valid category but invalid amount and invalid
date is rejected with the amount failure. -/
theorem processRow_first_failure_witness :
    processRow 2 ⟨some "Food", some "x", some "d", some "bad"⟩ =
      .error (invalidRowOf ⟨some "Food", some "x", some "d", some "bad"⟩ 2 "Invalid amount") :=
  (processRow_first_failure ⟨some "Food", some "x", some "d", some "bad"⟩ 2).2.1
    "Food" "Invalid amount" (by decide) (by decide)

/-- C8: `parse_amount` removes every comma of its input, wherever it occurs,
before parsing: the result only depends on the comma-free residue, `"1,2,3.45"`
is accepted as 123.45, and `","` is rejected as `Missing amount`. -/
theorem parse_amount_comma_insensitive :
    (∀ s : String, parse_amount (some s) =
      parse_amount (some (String.mk (s.data.filter (fun c => c ≠ ','))))) ∧
    parse_amount (some "1,2,3.45") = .ok (.finite 12345 100) ∧
    PyVal.val (.finite 12345 100) = some (123.45 : ℚ) ∧
    parse_amount (some ",") = .error "Missing amount" := by
  refine ⟨?_, by decide, ?_, by decide⟩
  · intro s
    have key : (String.mk (s.data.filter (fun c => c ≠ ','))).data.filter (fun c => c ≠ ',') =
        s.data.filter (fun c => c ≠ ',') := filter_comma_idem s.data
    simp only [parse_amount, key]
  · simp [PyVal.val]; norm_num

/-- C9: after comma removal and stripping, every string accepted by Python
float parsing is accepted by `parse_amount` — including scientific notation
(`"1e3"` is 1000.0) and the special values `"inf"` and `"nan"`. -/
theorem parse_amount_accepts_python_floats :
    (∀ s : String, (pyFloat? (commaFree s)).isSome = true →
        ∃ x, parse_amount (some s) = .ok x) ∧
    parse_amount (some "1e3") = .ok (.finite 1000 1) ∧
    PyVal.val (.finite 1000 1) = some (1000 : ℚ) ∧
    parse_amount (some "inf") = .ok .inf ∧
    parse_amount (some "nan") = .ok .nan := by
  refine ⟨?_, by decide, ?_, by decide, by decide⟩
  · intro s h
    have hne : commaFree s ≠ [] := by
      intro he
      rw [he] at h
      exact absurd h (by decide)
    obtain ⟨x, hx⟩ := Option.isSome_iff_exists.mp h
    exact ⟨x, by rw [parse_amount_some, if_neg hne, hx]⟩
  · norm_num [PyVal.val]

/-- C9 witness: the float-grammar acceptance applied at `"1e3"`. -/
theorem parse_amount_accepts_python_floats_witness :
    ∃ x, parse_amount (some "1e3") = .ok x :=
  parse_amount_accepts_python_floats.1 "1e3" (by decide)

theorem lookupCat_nil (c : String) : lookupCat [] c = none := rfl

theorem lookupCat_cons (c0 : String) (a0 : PyVal) (rest : List (String × PyVal)) (c : String) :
    lookupCat ((c0, a0) :: rest) c = if c0 = c then some a0 else lookupCat rest c := by
  by_cases h : c0 = c <;> simp [lookupCat, List.find?_cons, h]

theorem lookupMC_nil (m c : String) : lookupMC [] m c = none := rfl

theorem lookupMC_cons (m0 : String) (cats0 : List (String × PyVal))
    (rest : List (String × List (String × PyVal))) (m c : String) :
    lookupMC ((m0, cats0) :: rest) m c =
      if m0 = m then lookupCat cats0 c else lookupMC rest m c := by
  by_cases h : m0 = m <;> simp [lookupMC, List.find?_cons, h]

theorem lookupCat_addCat (cat c : String) (amt : PyVal) (cats : List (String × PyVal)) :
    lookupCat (addCat cat amt cats) c =
      if cat = c then some (PyVal.add ((lookupCat cats c).getD PyVal.zero) amt)
      else lookupCat cats c := by
  induction cats with
  | nil =>
    by_cases h : cat = c <;>
      simp [addCat, lookupCat_cons, lookupCat_nil, h]
  | cons p rest ih =>
    obtain ⟨c0, a0⟩ := p
    by_cases h0 : c0 = cat
    · subst h0
      by_cases h : c0 = c <;>
        simp [addCat, lookupCat_cons, h]
    · by_cases h : c0 = c
      · subst h
        have hcc : ¬ cat = c0 := fun hh => h0 hh.symm
        simp [addCat, lookupCat_cons, h0, hcc]
      · simp [addCat, lookupCat_cons, h0, h, ih]

theorem lookupMC_addExp (e : ExpenseRow) (s : List (String × List (String × PyVal)))
    (m c : String) :
    lookupMC (addExp e s) m c =
      if e.month_key = m then
        (if e.category = c then
          some (PyVal.add ((lookupMC s m c).getD PyVal.zero) e.amount)
         else lookupMC s m c)
      else lookupMC s m c := by
  induction s with
  | nil =>
    by_cases hm : e.month_key = m <;>
      by_cases hc : e.category = c <;>
        simp [addExp, lookupMC_cons, lookupMC_nil, lookupCat_addCat, lookupCat_nil, hm, hc]
  | cons p rest ih =>
    obtain ⟨m0, cats0⟩ := p
    by_cases h0 : m0 = e.month_key
    · subst h0
      by_cases hm : e.month_key = m
      · simp [addExp, lookupMC_cons, lookupCat_addCat, hm]
      · simp [addExp, lookupMC_cons, hm]
    · by_cases hm : m0 = m
      · subst hm
        have hem : ¬ e.month_key = m0 := fun hh => h0 hh.symm
        simp [addExp, lookupMC_cons, h0, hem]
      · simp [addExp, lookupMC_cons, h0, hm, ih]

theorem getTot_addExp (e : ExpenseRow) (s : List (String × List (String × PyVal)))
    (m c : String) :
    getTot (addExp e s) m c =
      if e.month_key = m ∧ e.category = c then PyVal.add (getTot s m c) e.amount
      else getTot s m c := by
  unfold getTot
  rw [lookupMC_addExp]
  by_cases hm : e.month_key = m
  · by_cases hc : e.category = c
    · rw [if_pos hm, if_pos hc, if_pos (And.intro hm hc), Option.getD_some]
    · rw [if_pos hm, if_neg hc, if_neg (fun hh => hc hh.2)]
  · rw [if_neg hm, if_neg (fun hh => hm hh.1)]

/-- C5: in `summarize_by_month`, the entry of a (month, category) group is
exactly the float sum of the amounts of the records with that month key and
that category (so records of other groups never contribute), and a group is
present in the report if and only if at least one record contributes to it. -/
theorem summarize_group_totals (rows : List ExpenseRow) (m c : String) :
    getTot (summarize_by_month rows) m c =
      ((rows.filter (fun r => decide (r.month_key = m ∧ r.category = c))).map
        (fun r => r.amount)).foldl PyVal.add PyVal.zero ∧
    ((lookupMC (summarize_by_month rows) m c).isSome = true ↔
      ∃ r ∈ rows, r.month_key = m ∧ r.category = c) := by
  induction rows using List.reverseRecOn with
  | nil =>
    constructor
    · simp [summarize_by_month, getTot, lookupMC_nil]
    · simp [summarize_by_month, lookupMC_nil]
  | append_singleton rows e ih =>
    have hsum : summarize_by_month (rows ++ [e]) = addExp e (summarize_by_month rows) := by
      simp [summarize_by_month, List.foldl_append]
    have hfilter :
        (rows ++ [e]).filter (fun r => decide (r.month_key = m ∧ r.category = c)) =
          rows.filter (fun r => decide (r.month_key = m ∧ r.category = c)) ++
            (if e.month_key = m ∧ e.category = c then [e] else []) := by
      rw [List.filter_append]
      by_cases he : e.month_key = m ∧ e.category = c <;> simp [he]
    constructor
    · rw [hsum, getTot_addExp, hfilter, List.map_append, List.foldl_append, ih.1]
      by_cases he : e.month_key = m ∧ e.category = c
      · rw [if_pos he, if_pos he]
        simp
      · rw [if_neg he, if_neg he]
        simp
    · rw [hsum, lookupMC_addExp]
      by_cases hm : e.month_key = m
      · by_cases hc : e.category = c
        · rw [if_pos hm, if_pos hc]
          constructor
          · intro _
            exact ⟨e, List.mem_append.mpr (Or.inr (by simp)), hm, hc⟩
          · intro _
            rfl
        · rw [if_pos hm, if_neg hc, ih.2]
          constructor
          · rintro ⟨r, hr, hrm, hrc⟩
            exact ⟨r, List.mem_append.mpr (Or.inl hr), hrm, hrc⟩
          · rintro ⟨r, hr, hrm, hrc⟩
            rcases List.mem_append.mp hr with h | h
            · exact ⟨r, h, hrm, hrc⟩
            · rw [List.mem_singleton] at h
              subst h
              exact absurd hrc hc
      · rw [if_neg hm, ih.2]
        constructor
        · rintro ⟨r, hr, hrm, hrc⟩
          exact ⟨r, List.mem_append.mpr (Or.inl hr), hrm, hrc⟩
        · rintro ⟨r, hr, hrm, hrc⟩
          rcases List.mem_append.mp hr with h | h
          · exact ⟨r, h, hrm, hrc⟩
          · rw [List.mem_singleton] at h
            subst h
            exact absurd hrm hm

/-- C10: grouping is case-sensitive: two records of the same month whose
categories are equal up to letter case but not as strings land in distinct
(month, category) entries, each holding its own amount, and the serialized
monthly report contains one row for each. -/
theorem summarize_case_sensitive (r1 r2 : ExpenseRow)
    (hm : r1.month_key = r2.month_key)
    (_hcase : r1.category.data.map Char.toLower = r2.category.data.map Char.toLower)
    (hne : r1.category ≠ r2.category) :
    lookupMC (summarize_by_month [r1, r2]) r1.month_key r1.category =
      some (PyVal.add PyVal.zero r1.amount) ∧
    lookupMC (summarize_by_month [r1, r2]) r2.month_key r2.category =
      some (PyVal.add PyVal.zero r2.amount) ∧
    (write_monthly_summary (summarize_by_month [r1, r2])).length = 2 := by
  have hsum : summarize_by_month [r1, r2] =
      [(r1.month_key,
        [(r1.category, PyVal.add PyVal.zero r1.amount),
         (r2.category, PyVal.add PyVal.zero r2.amount)])] := by
    show addExp r2 (addExp r1 []) = _
    simp only [addExp, addCat]
    rw [if_pos hm, if_neg hne]
  refine ⟨?_, ?_, ?_⟩
  · rw [hsum, lookupMC_cons, if_pos rfl, lookupCat_cons, if_pos rfl]
  · rw [hsum, ← hm, lookupMC_cons, if_pos rfl, lookupCat_cons, if_neg hne,
      lookupCat_cons, if_pos rfl]
  · rw [hsum]
    unfold write_monthly_summary
    rw [List.map_cons, List.map_nil]
    rw [show sortStr [r1.month_key] = [r1.month_key] from rfl]
    rw [List.map_cons, List.map_nil, List.find?_cons_of_pos _ (by simp)]
    simp only [List.flatten_cons, List.flatten_nil, List.append_nil, List.length_map,
      List.map_cons, List.map_nil]
    show (sortStr [r1.category, r2.category]).length = 2
    unfold sortStr
    exact List.length_insertionSort (fun a b : String => a ≤ b) _

/-- C10 witness: two records in 2024-01 with categories `"Food"` and `"food"`
remain distinct groups with their own totals and two report rows. -/
theorem summarize_case_sensitive_witness :
    lookupMC
      (summarize_by_month
        [⟨"Food", .finite 100 10, "", ⟨2024, 1, 1⟩⟩, ⟨"food", .finite 5 1, "", ⟨2024, 1, 2⟩⟩])
      (ExpenseRow.month_key ⟨"Food", .finite 100 10, "", ⟨2024, 1, 1⟩⟩) "Food" =
      some (PyVal.add PyVal.zero (.finite 100 10)) ∧
    lookupMC
      (summarize_by_month
        [⟨"Food", .finite 100 10, "", ⟨2024, 1, 1⟩⟩, ⟨"food", .finite 5 1, "", ⟨2024, 1, 2⟩⟩])
      (ExpenseRow.month_key ⟨"food", .finite 5 1, "", ⟨2024, 1, 2⟩⟩) "food" =
      some (PyVal.add PyVal.zero (.finite 5 1)) ∧
    (write_monthly_summary
      (summarize_by_month
        [⟨"Food", .finite 100 10, "", ⟨2024, 1, 1⟩⟩, ⟨"food", .finite 5 1, "", ⟨2024, 1, 2⟩⟩])).length = 2 :=
  summarize_case_sensitive
    ⟨"Food", .finite 100 10, "", ⟨2024, 1, 1⟩⟩
    ⟨"food", .finite 5 1, "", ⟨2024, 1, 2⟩⟩
    (by decide) (by decide) (by decide)

/-- C7: with no rejected rows `write_invalid_rows` leaves no file behind — a
stale file at the target is removed — and with rejected rows it writes the
header plus one line per rejection in their original order. -/
theorem write_invalid_rows_state (invalid : List InvalidRow)
    (existing : Option (List (List String))) :
    (invalid = [] → write_invalid_rows invalid existing = none) ∧
    (invalid ≠ [] → write_invalid_rows invalid existing =
      some (invalidHeader :: invalid.map renderInvalid)) := by
  constructor
  · intro h
    subst h
    cases existing <;> rfl
  · intro h
    simp only [write_invalid_rows]
    rw [if_neg h]

/-- C7 witness: a stale file is deleted when nothing was rejected, and one
rejection produces a file with the header and exactly that line. -/
theorem write_invalid_rows_state_witness :
    write_invalid_rows [] (some [["stale"]]) = none ∧
    write_invalid_rows [⟨2, "a", "1", "d", "x", "Invalid amount"⟩] none =
      some [invalidHeader, renderInvalid ⟨2, "a", "1", "d", "x", "Invalid amount"⟩] :=
  ⟨(write_invalid_rows_state [] (some [["stale"]])).1 rfl,
   (write_invalid_rows_state [⟨2, "a", "1", "d", "x", "Invalid amount"⟩] none).2 (by decide)⟩

theorem addCat_keys (cat : String) (amt : PyVal) (cats : List (String × PyVal)) :
    (addCat cat amt cats).map Prod.fst =
      if cat ∈ cats.map Prod.fst then cats.map Prod.fst
      else cats.map Prod.fst ++ [cat] := by
  induction cats with
  | nil => simp [addCat]
  | cons p rest ih =>
    obtain ⟨c0, a0⟩ := p
    by_cases h0 : c0 = cat
    · subst h0
      simp [addCat]
    · have hc : ¬ cat = c0 := fun hh => h0 hh.symm
      by_cases hmem : cat ∈ rest.map Prod.fst
      · simp [addCat, h0, ih, hmem, hc]
      · simp [addCat, h0, ih, hmem, hc]

theorem addCat_keys_nodup (cat : String) (amt : PyVal) (cats : List (String × PyVal))
    (h : (cats.map Prod.fst).Nodup) :
    ((addCat cat amt cats).map Prod.fst).Nodup := by
  rw [addCat_keys]
  by_cases hmem : cat ∈ cats.map Prod.fst
  · rwa [if_pos hmem]
  · rw [if_neg hmem]
    simp [List.nodup_append, h, hmem]

theorem addExp_keys (e : ExpenseRow) (s : List (String × List (String × PyVal))) :
    (addExp e s).map Prod.fst =
      if e.month_key ∈ s.map Prod.fst then s.map Prod.fst
      else s.map Prod.fst ++ [e.month_key] := by
  induction s with
  | nil => simp [addExp]
  | cons p rest ih =>
    obtain ⟨m0, cats0⟩ := p
    by_cases h0 : m0 = e.month_key
    · subst h0
      simp [addExp]
    · have hc : ¬ e.month_key = m0 := fun hh => h0 hh.symm
      by_cases hmem : e.month_key ∈ rest.map Prod.fst
      · simp [addExp, h0, ih, hmem, hc]
      · simp [addExp, h0, ih, hmem, hc]

theorem addExp_keys_nodup (e : ExpenseRow) (s : List (String × List (String × PyVal)))
    (h : (s.map Prod.fst).Nodup) :
    ((addExp e s).map Prod.fst).Nodup := by
  rw [addExp_keys]
  by_cases hmem : e.month_key ∈ s.map Prod.fst
  · rwa [if_pos hmem]
  · rw [if_neg hmem]
    simp [List.nodup_append, h, hmem]

theorem addExp_cats_nodup (e : ExpenseRow) (s : List (String × List (String × PyVal)))
    (h : ∀ p ∈ s, (p.2.map Prod.fst).Nodup) :
    ∀ p ∈ addExp e s, (p.2.map Prod.fst).Nodup := by
  induction s with
  | nil =>
    intro p hp
    simp only [addExp, List.mem_singleton] at hp
    subst hp
    exact addCat_keys_nodup _ _ _ (by simp)
  | cons q rest ih =>
    obtain ⟨m0, cats0⟩ := q
    by_cases h0 : m0 = e.month_key
    · subst h0
      intro p hp
      rw [show addExp e ((e.month_key, cats0) :: rest) =
          (e.month_key, addCat e.category e.amount cats0) :: rest from by
            simp [addExp]] at hp
      rcases List.mem_cons.mp hp with hEq | hp2
      · rw [hEq]
        exact addCat_keys_nodup _ _ _ (h (e.month_key, cats0) (by simp))
      · exact h p (List.mem_cons_of_mem _ hp2)
    · intro p hp
      rw [show addExp e ((m0, cats0) :: rest) = (m0, cats0) :: addExp e rest from by
            simp [addExp, h0]] at hp
      rcases List.mem_cons.mp hp with hEq | hp2
      · rw [hEq]
        exact h (m0, cats0) (by simp)
      · exact ih (fun q hq => h q (List.mem_cons_of_mem _ hq)) p hp2

theorem summarize_nodup_inv (rows : List ExpenseRow)
    (acc : List (String × List (String × PyVal)))
    (h1 : (acc.map Prod.fst).Nodup)
    (h2 : ∀ p ∈ acc, (p.2.map Prod.fst).Nodup) :
    ((rows.foldl (fun a e => addExp e a) acc).map Prod.fst).Nodup ∧
    ∀ p ∈ rows.foldl (fun a e => addExp e a) acc, (p.2.map Prod.fst).Nodup := by
  induction rows generalizing acc with
  | nil => exact ⟨h1, h2⟩
  | cons e rest ih =>
    rw [List.foldl_cons]
    exact ih (addExp e acc) (addExp_keys_nodup e acc h1) (addExp_cats_nodup e acc h2)

theorem summarize_keys_nodup (rows : List ExpenseRow) :
    ((summarize_by_month rows).map Prod.fst).Nodup ∧
    ∀ p ∈ summarize_by_month rows, (p.2.map Prod.fst).Nodup :=
  summarize_nodup_inv rows [] (by simp) (by simp)

theorem sortStr_sorted_lt (l : List String) (h : l.Nodup) :
    List.Sorted (fun a b : String => a < b) (sortStr l) := by
  have hs := List.sorted_insertionSort (fun a b : String => a ≤ b) l
  have hn : (sortStr l).Nodup :=
    (List.perm_insertionSort (fun a b : String => a ≤ b) l).nodup_iff.mpr h
  exact hs.lt_of_le hn

theorem summary_block_key (s : List (String × List (String × PyVal)))
    (month : String) (x : String × String × String)
    (hx : x ∈ (match s.find? (fun p => p.1 = month) with
      | some p =>
        (sortStr (p.2.map Prod.fst)).map (fun cat =>
          (month, cat, fmt2 ((lookupCat p.2 cat).getD PyVal.zero)))
      | none => ([] : List (String × String × String)))) : x.1 = month := by
  cases hf : s.find? (fun p => p.1 = month) with
  | none => simp only [hf] at hx; simp at hx
  | some p =>
    simp only [hf] at hx
    rw [List.mem_map] at hx
    obtain ⟨cat, _, rfl⟩ := hx
    rfl

/-- C6: serialization of the monthly report emits its rows sorted by month
key ascending and, within a month, by category ascending, under the
code-point (case-sensitive ordinal) string order. -/
theorem write_monthly_summary_ordered (rows : List ExpenseRow) :
    (write_monthly_summary (summarize_by_month rows)).Pairwise keyLt := by
  obtain ⟨hkeys, hcats⟩ := summarize_keys_nodup rows
  unfold write_monthly_summary
  rw [List.pairwise_flatten]
  constructor
  · intro l hl
    rw [List.mem_map] at hl
    obtain ⟨month, hmonth, rfl⟩ := hl
    cases hfind : (summarize_by_month rows).find? (fun p => p.1 = month) with
    | none => simp [hfind]
    | some p =>
      simp only [hfind]
      rw [List.pairwise_map]
      have hpmem : p ∈ summarize_by_month rows := List.mem_of_find?_eq_some hfind
      have hnd : (p.2.map Prod.fst).Nodup := hcats p hpmem
      have hsorted := sortStr_sorted_lt (p.2.map Prod.fst) hnd
      exact hsorted.imp (fun hab => Or.inr ⟨rfl, hab⟩)
  · rw [List.pairwise_map]
    have hsorted := sortStr_sorted_lt ((summarize_by_month rows).map Prod.fst) hkeys
    refine hsorted.imp ?_
    intro m1 m2 h12 x hx y hy
    have hx1 := summary_block_key (summarize_by_month rows) m1 x hx
    have hy1 := summary_block_key (summarize_by_month rows) m2 y hy
    exact Or.inl (by rw [hx1, hy1]; exact h12)
